import Mathlib

/-!
Verification development for the provider-agnostic LLM conversation core:
canonical message model, vendor adapters (Gemini-style, Anthropic-style,
Ollama-style), the Anthropic stream aggregator, and the tool registry /
invocation loop.  Every definition is a shallow embedding of the
corresponding TypeScript source function; JavaScript runtime primitives
(`JSON.parse`, `JSON.stringify`, `String(...)`, truthiness) are modelled
explicitly on a JSON value type.
-/

set_option maxRecDepth 10000

/-- A JSON-like runtime value.  Models the JavaScript values the repository
passes around as tool props, tool results and parsed arguments.  Numbers are
modelled as integers (the repository only manipulates integral literals in
the places the claims touch). -/
inductive Json where
  | null : Json
  | bool (b : Bool) : Json
  | num (n : Int) : Json
  | str (s : String) : Json
  | arr (elems : List Json) : Json
  | obj (fields : List (String × Json)) : Json
deriving Inhabited

/-- JavaScript truthiness of a value (`if (v)`): `null`, `false`, `0` and
`""` are falsy; arrays and objects are always truthy. -/
def jsTruthy : Json → Bool
  | Json.null => false
  | Json.bool b => b
  | Json.num n => n != 0
  | Json.str s => s != ""
  | Json.arr _ => true
  | Json.obj _ => true

/-- Truthiness of an optional value: `undefined` is falsy. -/
def optTruthy : Option Json → Bool
  | some v => jsTruthy v
  | none => false

/-- Truthiness of an optional string (`undefined` and `""` are falsy). -/
def truthyStr : Option String → Bool
  | some s => s != ""
  | none => false

def quoteChar : Char := Char.ofNat 34
def backslashChar : Char := Char.ofNat 92
def lbraceChar : Char := Char.ofNat 123
def rbraceChar : Char := Char.ofNat 125

/-- Escaping of one character inside a JSON string literal, as
`JSON.stringify` performs it (quote, backslash and common control chars). -/
def escapeJsonChar (c : Char) : List Char :=
  if c = quoteChar then [backslashChar, quoteChar]
  else if c = backslashChar then [backslashChar, backslashChar]
  else if c = Char.ofNat 10 then [backslashChar, 'n']
  else if c = Char.ofNat 9 then [backslashChar, 't']
  else if c = Char.ofNat 13 then [backslashChar, 'r']
  else [c]

/-- `JSON.stringify` applied to a string value. -/
def jsonStringifyStr (s : String) : String :=
  String.mk (quoteChar :: (s.data.foldr (fun c acc => escapeJsonChar c ++ acc) [quoteChar]))

mutual

/-- Model of the JavaScript builtin `JSON.stringify` on defined values. -/
def jsonStringify : Json → String
  | Json.null => "null"
  | Json.bool b => if b then "true" else "false"
  | Json.num n => toString n
  | Json.str s => jsonStringifyStr s
  | Json.arr es => "[" ++ jsonStringifyElems es ++ "]"
  | Json.obj fs => String.mk [lbraceChar] ++ jsonStringifyFields fs ++ String.mk [rbraceChar]

/-- Comma-joined `JSON.stringify` of array elements. -/
def jsonStringifyElems : List Json → String
  | [] => ""
  | [e] => jsonStringify e
  | e :: rest => jsonStringify e ++ "," ++ jsonStringifyElems rest

/-- Comma-joined `JSON.stringify` of object members. -/
def jsonStringifyFields : List (String × Json) → String
  | [] => ""
  | [(k, v)] => jsonStringifyStr k ++ ":" ++ jsonStringify v
  | (k, v) :: rest => jsonStringifyStr k ++ ":" ++ jsonStringify v ++ "," ++ jsonStringifyFields rest

end

mutual

/-- Model of the JavaScript `String(...)` coercion: strings pass through
unchanged, plain objects render as `"[object Object]"`, arrays join their
elements with commas (with `null` elements rendering as empty). -/
def jsString : Json → String
  | Json.null => "null"
  | Json.bool b => if b then "true" else "false"
  | Json.num n => toString n
  | Json.str s => s
  | Json.arr es => jsStringElems es
  | Json.obj _ => "[object Object]"

/-- Comma-joined rendering of array elements under `String(...)`; `null`
elements render as the empty string. -/
def jsStringElems : List Json → String
  | [] => ""
  | [Json.null] => ""
  | [e] => jsString e
  | Json.null :: rest => "," ++ jsStringElems rest
  | e :: rest => jsString e ++ "," ++ jsStringElems rest

end

/-- JSON whitespace. -/
def isJsonWs (c : Char) : Bool :=
  c = ' ' || c = Char.ofNat 10 || c = Char.ofNat 9 || c = Char.ofNat 13

def skipWs : List Char → List Char
  | [] => []
  | c :: cs => if isJsonWs c then skipWs cs else c :: cs

/-- Parse the remainder of a JSON string literal (after the opening quote),
returning the decoded characters and the rest of the input. -/
def parseStrChars : Nat → List Char → Option (List Char × List Char)
  | 0, _ => none
  | _ + 1, [] => none
  | fuel + 1, c :: cs =>
    if c = quoteChar then some ([], cs)
    else if c = backslashChar then
      match cs with
      | [] => none
      | e :: cs2 =>
        let esc : Option Char :=
          if e = quoteChar then some quoteChar
          else if e = backslashChar then some backslashChar
          else if e = '/' then some '/'
          else if e = 'n' then some (Char.ofNat 10)
          else if e = 't' then some (Char.ofNat 9)
          else if e = 'r' then some (Char.ofNat 13)
          else none
        match esc with
        | some ch => (parseStrChars fuel cs2).map (fun p => (ch :: p.1, p.2))
        | none => none
    else (parseStrChars fuel cs).map (fun p => (c :: p.1, p.2))

/-- Split the leading decimal digits off a character list. -/
def takeDigits : List Char → (List Char × List Char)
  | [] => ([], [])
  | c :: cs =>
    if c.isDigit then
      let p := takeDigits cs
      (c :: p.1, p.2)
    else ([], c :: cs)

def digitsToNat (ds : List Char) : Nat :=
  ds.foldl (fun n c => n * 10 + (c.toNat - 48)) 0

/-- The three parsing modes of the recursive-descent JSON parser: a value,
the members of an object after its opening brace, the elements of an array
after its opening bracket. -/
inductive PMode where
  | value : PMode
  | members : PMode
  | elems : PMode
deriving DecidableEq

/-- Fuel-indexed recursive-descent parser.  In `members` mode the result is
wrapped as `Json.obj`, in `elems` mode as `Json.arr`. -/
def parseV : Nat → PMode → List Char → Option (Json × List Char)
  | 0, _, _ => none
  | fuel + 1, PMode.value, cs0 =>
    match skipWs cs0 with
    | [] => none
    | c :: cs =>
      if c = quoteChar then
        (parseStrChars (cs.length + 1) cs).map (fun p => (Json.str (String.mk p.1), p.2))
      else if c = lbraceChar then
        match skipWs cs with
        | c2 :: r =>
          if c2 = rbraceChar then some (Json.obj [], r)
          else parseV fuel PMode.members (c2 :: r)
        | [] => none
      else if c = '[' then
        match skipWs cs with
        | ']' :: r => some (Json.arr [], r)
        | rest => parseV fuel PMode.elems rest
      else if c = 't' then
        match cs with
        | 'r' :: 'u' :: 'e' :: r => some (Json.bool true, r)
        | _ => none
      else if c = 'f' then
        match cs with
        | 'a' :: 'l' :: 's' :: 'e' :: r => some (Json.bool false, r)
        | _ => none
      else if c = 'n' then
        match cs with
        | 'u' :: 'l' :: 'l' :: r => some (Json.null, r)
        | _ => none
      else if c = '-' then
        match takeDigits cs with
        | ([], _) => none
        | (ds, r) => some (Json.num (-(digitsToNat ds : Int)), r)
      else if c.isDigit then
        match takeDigits (c :: cs) with
        | (ds, r) => some (Json.num (digitsToNat ds), r)
      else none
  | fuel + 1, PMode.members, cs0 =>
    match skipWs cs0 with
    | [] => none
    | c :: cs =>
      if c = quoteChar then
        match parseStrChars (cs.length + 1) cs with
        | some (k, r1) =>
          (match skipWs r1 with
          | ':' :: r2 =>
            (match parseV fuel PMode.value r2 with
            | some (v, r3) =>
              (match skipWs r3 with
              | c4 :: r4 =>
                if c4 = ',' then
                  match parseV fuel PMode.members r4 with
                  | some (Json.obj ms, r) => some (Json.obj ((String.mk k, v) :: ms), r)
                  | _ => none
                else if c4 = rbraceChar then
                  some (Json.obj [(String.mk k, v)], r4)
                else none
              | [] => none)
            | none => none)
          | _ => none)
        | none => none
      else none
  | fuel + 1, PMode.elems, cs0 =>
    match parseV fuel PMode.value cs0 with
    | some (v, r1) =>
      (match skipWs r1 with
      | ',' :: r2 =>
        (match parseV fuel PMode.elems r2 with
        | some (Json.arr es, r) => some (Json.arr (v :: es), r)
        | _ => none)
      | ']' :: r2 => some (Json.arr [v], r2)
      | _ => none)
    | none => none

/-- Model of the JavaScript builtin `JSON.parse`, restricted to the JSON
subset the repository exercises (objects, arrays, strings with simple
escapes, integers, booleans, null).  Trailing non-whitespace input is
rejected, as `JSON.parse` rejects it. -/
def jsonParse (s : String) : Option Json :=
  match parseV (2 * s.length + 2) PMode.value s.data with
  | some (v, rest) => if (skipWs rest).isEmpty then some v else none
  | none => none

example : jsonParse "\x7b\x22a\x22:1\x7d" = some (Json.obj [("a", Json.num 1)]) := rfl
example : jsonParse "\x7b\x22a\x22:1" = none := rfl
example : jsonParse "[1,true,null]" = some (Json.arr [Json.num 1, Json.bool true, Json.null]) := rfl
example : jsonParse "\x22hi\x22" = some (Json.str "hi") := rfl
example : jsonParse "-12" = some (Json.num (-12)) := rfl
example : jsonStringify (Json.obj [("a", Json.num 1)]) = "\x7b\x22a\x22:1\x7d" := rfl
example : jsString (Json.obj [("a", Json.num 1)]) = "[object Object]" := rfl

/-! ## Canonical message model (src/mod.ts) -/

structure TextContent where
  text : String
deriving DecidableEq

structure ToolCall where
  id : String
  name : String
  props : Json

/-- One entry of a model message's `contents`: `TextContent` or
`ToolCallContent` (the latter with its optional `reasoning` passthrough). -/
inductive ModelContent where
  | text (t : TextContent) : ModelContent
  | toolCall (tc : ToolCall) (reasoning : Option String) : ModelContent

/-- The `result` field of a `ToolResultContent`: both `output` and `error`
are structurally optional. -/
structure ToolResultPayload where
  output : Option Json := none
  error : Option Json := none

/-- The `toolResult` record of a `ToolResultContent`. -/
structure ToolResultRecord where
  id : String
  name : String
  result : ToolResultPayload

/-- One entry of a tool message's `contents` (`ToolCallContent` or
`ToolResultContent`). -/
inductive ToolMsgContent where
  | toolCall (tc : ToolCall) (reasoning : Option String) : ToolMsgContent
  | toolResult (r : ToolResultRecord) : ToolMsgContent

/-- `contents` of a system/user message: a plain string or a list of
`TextContent`. -/
inductive SUContents where
  | str (s : String) : SUContents
  | texts (ts : List TextContent) : SUContents

/-- A canonical `Message`, tagged by role.  The `thinking` field appears on
model messages built by the Ollama adapter (absent elsewhere). -/
inductive Message where
  | system (contents : SUContents) : Message
  | user (contents : SUContents) : Message
  | model (contents : List ModelContent) (toolCalls : List ToolCall)
      (thinking : Option String) : Message
  | tool (contents : List ToolMsgContent) : Message

/-- The projection of a model message's `contents` onto its tool-call
entries, in order. -/
def projToolCalls (cs : List ModelContent) : List ToolCall :=
  cs.filterMap (fun c => match c with
    | ModelContent.toolCall tc _ => some tc
    | _ => none)

/-- The same projection on a possibly-sparse block list (a `none` entry
models a hole of the JavaScript array, which `filter` skips). -/
def projToolCallsO (cs : List (Option ModelContent)) : List ToolCall :=
  cs.filterMap (fun b => match b with
    | some (ModelContent.toolCall tc _) => some tc
    | _ => none)

/-! ## Tool registry and invocation loop (src/tools/mod.ts) -/

/-- A thrown JavaScript value: a `ValidationException` (an `Error` carrying
the schema validation errors), another `Error` with a message, or an
arbitrary non-`Error` value. -/
inductive JsThrown where
  | validationException (errors : List Json) : JsThrown
  | jsError (message : String) : JsThrown
  | otherValue (v : Json) : JsThrown

/-- `instanceof Error`. -/
def JsThrown.isError : JsThrown → Bool
  | JsThrown.validationException _ => true
  | JsThrown.jsError _ => true
  | JsThrown.otherValue _ => false

/-- Modelled from the spec: the `message` of a `ValidationException` from
`@huuma/validate` renders the validation errors; schema validation
internals are an excluded external collaborator, so only the fact that the
exception is an `Error` whose message derives from the errors is modelled.
No claim depends on its exact text. -/
def validationExceptionMessage (errors : List Json) : String :=
  jsonStringify (Json.arr errors)

def JsThrown.message : JsThrown → String
  | JsThrown.validationException es => validationExceptionMessage es
  | JsThrown.jsError m => m
  | JsThrown.otherValue _ => ""

/-- The external `Schema` contract: `validate(value) -> {errors, value}`
plus a JSON-Schema projection, treated as a pure black box. -/
structure Schema where
  validate : Json → Option (List Json) × Json
  jsonSchema : Json

/-- A declared tool: name, description, input schema and the tool function
(which may throw). -/
structure Tool where
  name : String
  description : String
  input : Schema
  fn : Json → Except JsThrown Json

/-- Truthiness of `errors?.length`: truthy exactly when errors are defined
and nonempty. -/
def errorsTruthy : Option (List Json) → Bool
  | some es => es.length != 0
  | none => false

/-- `Tool.call`: validate the raw props first; on reported errors throw a
`ValidationException` with those errors; otherwise invoke the tool function
with the validated/coerced value. -/
def Tool.call (t : Tool) (props : Json) : Except JsThrown Json :=
  let r := t.input.validate props
  if errorsTruthy r.1 then
    Except.error (JsThrown.validationException (r.1.getD []))
  else
    t.fn r.2

/-- The tool registry: a `Map` keyed by tool name built from a list, where a
later registration with the same name overwrites an earlier one. -/
structure Tools where
  tools : List Tool

/-- `Tools.get`: look up by name (last registration wins, per `Map`
semantics); throws `Error("Tool <name> not found")` when absent. -/
def Tools.get (ts : Tools) (name : String) : Except JsThrown Tool :=
  match ts.tools.reverse.find? (fun t => t.name == name) with
  | some t => Except.ok t
  | none => Except.error (JsThrown.jsError ("Tool " ++ name ++ " not found"))

/-- The catch block of `callTool`: an `Error` contributes
`{ error: error.message }`, any other thrown value contributes
`{ error: JSON.stringify(error) }`. -/
def renderCaughtError : JsThrown → Json
  | JsThrown.validationException es =>
      Json.obj [("error", Json.str (validationExceptionMessage es))]
  | JsThrown.jsError m => Json.obj [("error", Json.str m)]
  | JsThrown.otherValue v => Json.obj [("error", Json.str (jsonStringify v))]

/-- One iteration of the `callTool` loop: look the tool up, call it, catch
any thrown value, and push a `ToolResultContent` whose `result` wraps the
obtained value (or the caught-error record) under `output`. -/
def processToolCall (ts : Tools) (tc : ToolCall) : ToolResultRecord :=
  let outcome : Json :=
    match (Tools.get ts tc.name).bind (fun t => Tool.call t tc.props) with
    | Except.ok v => v
    | Except.error e => renderCaughtError e
  { id := tc.id, name := tc.name, result := { output := some outcome, error := none } }

/-- The invocation loop `callTool`: take the last message of the
conversation, iterate its `toolCalls` in order, and append one `tool`
message holding all results.  `none` models the uncaught `TypeError` the
source raises when the conversation is empty or its last message is not a
model message (the cast `(<ModelMessage> message).toolCalls` yields
`undefined` there). -/
def callTool (ts : Tools) (messages : List Message) : Option (List Message) :=
  match messages.getLast? with
  | some (Message.model _ toolCalls _) =>
      some (messages ++ [Message.tool (toolCalls.map
        (fun tc => ToolMsgContent.toolResult (processToolCall ts tc)))])
  | _ => none

/-- C1: the claim says a failed tool call yields a `ToolResultContent` with
`result.error` set and never only `result.output`.  The code instead always
wraps the per-call outcome — including the caught-error record — under
`result.output`, leaving `result.error` unset: for every registry and call,
`result.error = none` and `result.output` is set; at the concrete failing
input (empty registry, call to "missing") the result is
`{ output: { error: "Tool missing not found" } }`. -/
theorem c1_failed_call_wraps_error_in_output :
    (∀ ts tc, (processToolCall ts tc).result.error = none
      ∧ (processToolCall ts tc).result.output.isSome = true)
    ∧ processToolCall ⟨[]⟩ ⟨"1", "missing", Json.obj []⟩
        = { id := "1", name := "missing",
            result := { output := some (Json.obj [("error", Json.str "Tool missing not found")]),
                        error := none } } :=
  ⟨fun _ _ => ⟨rfl, rfl⟩, rfl⟩

/-- C6: for a conversation whose last message is a model message, the
invocation loop completes (no rejection), appends exactly one `tool`
message, collects one result per originating call in declaration order
(each result a function of its own call alone, so one call's failure cannot
affect its siblings), matches each result to its call by `id` and `name`,
and converts a caught per-call failure into a result carrying the rendered
error. -/
theorem c6_loop_completes_in_order_one_message :
    ∀ ts msgs contents toolCalls thinking,
      msgs.getLast? = some (Message.model contents toolCalls thinking) →
      callTool ts msgs
        = some (msgs ++ [Message.tool (toolCalls.map
            (fun tc => ToolMsgContent.toolResult (processToolCall ts tc)))])
      ∧ (∀ tc, (processToolCall ts tc).id = tc.id ∧ (processToolCall ts tc).name = tc.name)
      ∧ (∀ tc e, (Tools.get ts tc.name).bind (fun t => Tool.call t tc.props) = Except.error e →
          (processToolCall ts tc).result
            = { output := some (renderCaughtError e), error := none }) := by
  intro ts msgs contents toolCalls thinking h
  refine ⟨?_, fun tc => ⟨rfl, rfl⟩, ?_⟩
  · unfold callTool
    rw [h]
  · intro tc e he
    unfold processToolCall
    rw [he]

/-- Witness for C6 at a concrete conversation: one model message with one
call to an unregistered tool; the loop still completes with one appended
tool message holding that call's (error-carrying) result. -/
theorem c6_witness :
    callTool ⟨[]⟩ [Message.model [ModelContent.toolCall ⟨"1", "missing", Json.obj []⟩ none]
        [⟨"1", "missing", Json.obj []⟩] none]
      = some [Message.model [ModelContent.toolCall ⟨"1", "missing", Json.obj []⟩ none]
          [⟨"1", "missing", Json.obj []⟩] none,
        Message.tool [ToolMsgContent.toolResult
          { id := "1", name := "missing",
            result := { output := some (Json.obj [("error", Json.str "Tool missing not found")]),
                        error := none } }]] := by
  have h := c6_loop_completes_in_order_one_message ⟨[]⟩
    [Message.model [ModelContent.toolCall ⟨"1", "missing", Json.obj []⟩ none]
      [⟨"1", "missing", Json.obj []⟩] none]
    [ModelContent.toolCall ⟨"1", "missing", Json.obj []⟩ none]
    [⟨"1", "missing", Json.obj []⟩] none rfl
  rw [h.1]
  rfl

/-- C7: `Tool.call` validates the input props first; when validation
reports errors the tool function is never invoked (the outcome does not
depend on `fn`) and the validation errors are raised as the failure; when
validation succeeds the function is invoked with the validated/coerced
value returned by `validate`, not the raw input. -/
theorem c7_validate_gates_invocation :
    ∀ (t : Tool) (props : Json),
      (errorsTruthy (t.input.validate props).1 = true →
        Tool.call t props
          = Except.error (JsThrown.validationException ((t.input.validate props).1.getD []))
        ∧ ∀ fn2, Tool.call { t with fn := fn2 } props = Tool.call t props)
      ∧ (errorsTruthy (t.input.validate props).1 = false →
        Tool.call t props = t.fn (t.input.validate props).2) := by
  intro t props
  constructor
  · intro h
    constructor
    · unfold Tool.call
      rw [if_pos h]
    · intro fn2
      unfold Tool.call
      simp only []
      rw [if_pos h, if_pos h]
  · intro h
    unfold Tool.call
    rw [if_neg (by simp [h])]

/-- Witness for C7: a schema that always reports an error makes `Tool.call`
throw a `ValidationException` without running `fn`; a schema that coerces
every input to `7` makes `Tool.call` run `fn` on `7`, not on the raw
input. -/
theorem c7_witness :
    Tool.call ⟨"t", "d", ⟨fun v => (some [Json.str "bad"], v), Json.obj []⟩,
        fun _ => Except.ok (Json.str "ran")⟩ (Json.str "raw")
      = Except.error (JsThrown.validationException [Json.str "bad"])
    ∧ Tool.call ⟨"t", "d", ⟨fun _ => (none, Json.num 7), Json.obj []⟩,
        fun v => Except.ok v⟩ (Json.str "raw")
      = Except.ok (Json.num 7) := by
  constructor
  · exact (c7_validate_gates_invocation
      ⟨"t", "d", ⟨fun v => (some [Json.str "bad"], v), Json.obj []⟩,
        fun _ => Except.ok (Json.str "ran")⟩ (Json.str "raw")).1 rfl |>.1
  · exact (c7_validate_gates_invocation
      ⟨"t", "d", ⟨fun _ => (none, Json.num 7), Json.obj []⟩,
        fun v => Except.ok v⟩ (Json.str "raw")).2 rfl

/-! ## Shared adapter result shape -/

/-- The `ModelResult` wrapper adapters return: model id plus parsed
messages. -/
structure ModelResult where
  modelId : String
  messages : List Message

/-! ## Anthropic-style adapter (batch parse, wire serialization, stream) -/

namespace AnthropicM

/-- A content block of a complete Anthropic response (`text`, `tool_use`, or
any other block type the parser skips). -/
inductive AnthRespBlock where
  | text (t : String) : AnthRespBlock
  | toolUse (id : String) (name : String) (input : Json) : AnthRespBlock
  | otherBlock : AnthRespBlock

/-- The complete (non-streaming) Anthropic response shape used by
`modelResultFrom`. -/
structure AnthResponse where
  model : String
  content : List AnthRespBlock

/-- One block-processing step of the batch `modelResultFrom` loop: a text
block pushes a `TextContent`; a `tool_use` block pushes the same tool-call
object into both `contents` and `toolCalls`. -/
def respStep (acc : List ModelContent × List ToolCall) (block : AnthRespBlock) :
    List ModelContent × List ToolCall :=
  match block with
  | AnthRespBlock.text t => (acc.1 ++ [ModelContent.text ⟨t⟩], acc.2)
  | AnthRespBlock.toolUse id name input =>
      let toolCall : ToolCall := ⟨id, name, input⟩
      (acc.1 ++ [ModelContent.toolCall toolCall none], acc.2 ++ [toolCall])
  | AnthRespBlock.otherBlock => acc

/-- `modelResultFrom`: fold the response blocks into one model message,
pushing a `TextContent` per text block and, per `tool_use` block, the same
tool-call object into both `contents` and `toolCalls`. -/
def modelResultFrom (response : AnthResponse) : ModelResult :=
  let acc := response.content.foldl respStep ([], [])
  { modelId := response.model,
    messages := [Message.model acc.1 acc.2 none] }

/-- A wire content block of an Anthropic request message.  For a
`tool_result` block, `content = none` models the JavaScript `undefined`
(`JSON.stringify(undefined)`), and `isError = true` models the presence of
`is_error: true`. -/
inductive AnthBlockParam where
  | text (t : String) : AnthBlockParam
  | toolUse (id : String) (name : String) (input : Json) : AnthBlockParam
  | toolResult (toolUseId : String) (content : Option String) (isError : Bool) : AnthBlockParam

/-- Wire message content: a plain string or a block list. -/
inductive AnthContent where
  | str (s : String) : AnthContent
  | blocks (bs : List AnthBlockParam) : AnthContent

structure AnthMessageParam where
  role : String
  content : AnthContent

/-- `typeof result.output === "string" ? result.output :
JSON.stringify(result.output)`; an absent output yields `undefined`. -/
def renderOutput : Option Json → Option String
  | some (Json.str s) => some s
  | some v => some (jsonStringify v)
  | none => none

/-- `anthropicMessagesFrom`: canonical messages to Anthropic wire messages.
System messages are skipped; model maps to `assistant`; a tool message
becomes a `user` message of `tool_result` blocks, where a truthy
`result.error` is rendered via `String(...)` with `is_error: true`, and
otherwise `result.output` is rendered as-is if a string else
JSON-serialized. -/
def anthropicMessagesFrom (messages : List Message) : List AnthMessageParam :=
  messages.foldl (fun acc m =>
    match m with
    | Message.system _ => acc
    | Message.user c =>
        match c with
        | SUContents.str s => acc ++ [⟨"user", AnthContent.str s⟩]
        | SUContents.texts ts =>
            acc ++ [⟨"user", AnthContent.blocks (ts.map (fun t => AnthBlockParam.text t.text))⟩]
    | Message.model contents _ _ =>
        let blocks := contents.foldl (fun bs c =>
          match c with
          | ModelContent.text t => bs ++ [AnthBlockParam.text t.text]
          | ModelContent.toolCall tc _ =>
              bs ++ [AnthBlockParam.toolUse tc.id tc.name tc.props]) []
        acc ++ [⟨"assistant", AnthContent.blocks blocks⟩]
    | Message.tool contents =>
        let blocks := contents.foldl (fun bs c =>
          match c with
          | ToolMsgContent.toolCall _ _ => bs
          | ToolMsgContent.toolResult r =>
            if optTruthy r.result.error then
              bs ++ [AnthBlockParam.toolResult r.id
                (some (jsString (r.result.error.getD Json.null))) true]
            else
              bs ++ [AnthBlockParam.toolResult r.id (renderOutput r.result.output) false]) []
        if blocks.length > 0 then acc ++ [⟨"user", AnthContent.blocks blocks⟩] else acc) []

/-- A `content_block_start` payload: text block (with initial text),
`tool_use` block (id and name), or any other block type, which the
aggregator ignores. -/
inductive StartBlock where
  | textBlock (t : String) : StartBlock
  | toolUseBlock (id : String) (name : String) : StartBlock
  | otherStart : StartBlock

/-- A `content_block_delta` payload. -/
inductive DeltaEvent where
  | textDelta (t : String) : DeltaEvent
  | inputJsonDelta (jsonFragment : String) : DeltaEvent
  | otherDelta : DeltaEvent

/-- A streaming event as consumed by `#streamIterator`; events of any other
type still cause a snapshot to be yielded. -/
inductive StreamEvent where
  | contentBlockStart (index : Nat) (block : StartBlock) : StreamEvent
  | contentBlockDelta (index : Nat) (delta : DeltaEvent) : StreamEvent
  | otherEvent : StreamEvent

/-- The aggregator state: the index-addressed `contentBlocks` array (a
`none` entry models a hole of the sparse JavaScript array) and the
`toolArgsBuffers` map from index to accumulated JSON text. -/
structure StreamState where
  blocks : List (Option ModelContent) := []
  buffers : List (Nat × String) := []

/-- `Map.get`. -/
def mapGet (m : List (Nat × String)) (k : Nat) : Option String :=
  (m.find? (fun p => p.1 == k)).map Prod.snd

/-- `Map.set` (replace or append). -/
def mapSet (m : List (Nat × String)) (k : Nat) (v : String) : List (Nat × String) :=
  match m with
  | [] => [(k, v)]
  | p :: rest => if p.1 == k then (k, v) :: rest else p :: mapSet rest k v

/-- `contentBlocks[i] = b` on a sparse JavaScript array: assigning past the
end pads with holes. -/
def setIdx : List (Option ModelContent) → Nat → ModelContent → List (Option ModelContent)
  | [], 0, b => [some b]
  | [], n + 1, b => none :: setIdx [] n b
  | _ :: xs, 0, b => some b :: xs
  | x :: xs, n + 1, b => x :: setIdx xs n b

/-- One step of the stream fold (`#streamIterator`'s event handling):
block-start initializes the indexed block (text with its initial text;
tool_use with `props: {}` and an empty argument buffer); a text delta
appends to the text block; an `input_json_delta` appends the fragment to
the accumulated buffer and re-parses the whole buffer, replacing `props`
on success and keeping the previous `props` on parse failure. -/
def stepEvent (st : StreamState) (e : StreamEvent) : StreamState :=
  match e with
  | StreamEvent.contentBlockStart i sb =>
    match sb with
    | StartBlock.textBlock t =>
        { st with blocks := setIdx st.blocks i (ModelContent.text ⟨t⟩) }
    | StartBlock.toolUseBlock id name =>
        { blocks := setIdx st.blocks i (ModelContent.toolCall ⟨id, name, Json.obj []⟩ none),
          buffers := mapSet st.buffers i "" }
    | StartBlock.otherStart => st
  | StreamEvent.contentBlockDelta i d =>
    match st.blocks.getD i none with
    | none => st
    | some b =>
      match d, b with
      | DeltaEvent.textDelta t, ModelContent.text tc =>
          { st with blocks := setIdx st.blocks i (ModelContent.text ⟨tc.text ++ t⟩) }
      | DeltaEvent.inputJsonDelta frag, ModelContent.toolCall tc r =>
          let current := (mapGet st.buffers i).getD ""
          let updated := current ++ frag
          let props2 := match jsonParse updated with
            | some v => v
            | none => tc.props
          { blocks := setIdx st.blocks i (ModelContent.toolCall ⟨tc.id, tc.name, props2⟩ r),
            buffers := mapSet st.buffers i updated }
      | _, _ => st
  | StreamEvent.otherEvent => st

/-- The snapshot yielded after each event: `contents` is the spread
`[...contentBlocks]` (holes become `undefined`, modelled `none`), and
`toolCalls` is `contentBlocks.filter(b => "toolCall" in b).map(b =>
b.toolCall)` (holes are skipped by `filter`). -/
structure StreamSnapshot where
  contents : List (Option ModelContent)
  toolCalls : List ToolCall

def snapshotOf (st : StreamState) : StreamSnapshot :=
  { contents := st.blocks,
    toolCalls := projToolCallsO st.blocks }

/-- Whether the loop body reaches the `yield` for this event: a
`content_block_delta` whose index holds no initialized block hits
`if (!block) continue;`, which skips the yield; every other event (any
block-start, a delta on an initialized block — whatever its delta type —
and events of other types) falls through to the yield. -/
def yieldsSnapshot (st : StreamState) (e : StreamEvent) : Bool :=
  match e with
  | StreamEvent.contentBlockDelta i _ => (st.blocks.getD i none).isSome
  | _ => true

/-- The snapshot sequence of the fold, starting from a state: one snapshot
per event that reaches the `yield`; a delta at an uninitialized index is
skipped (`continue`) and contributes no snapshot. -/
def snapshotsFrom (st : StreamState) : List StreamEvent → List StreamSnapshot
  | [] => []
  | e :: es =>
      let st2 := stepEvent st e
      if yieldsSnapshot st e then snapshotOf st2 :: snapshotsFrom st2 es
      else snapshotsFrom st2 es

/-- `#streamIterator`: consume an event sequence and yield a cumulative
snapshot per non-skipped event. -/
def streamIterator (events : List StreamEvent) : List StreamSnapshot :=
  snapshotsFrom {} events

end AnthropicM

/-! ## Ollama-style adapter -/

namespace OllamaM

structure OllamaRespFunction where
  name : String
  arguments : Json

structure OllamaRespToolCall where
  function : OllamaRespFunction

structure OllamaRespMessage where
  content : String
  thinking : Option String := none
  tool_calls : Option (List OllamaRespToolCall) := none

structure ChatResponse where
  model : String
  message : OllamaRespMessage

/-- One tool-call step of the Ollama `modelResultFrom` loop: generate a
fresh id (`crypto.randomUUID()`, modelled by the injected `uuid` supply)
and push the same tool-call object into `contents` and `toolCalls`. -/
def respStep (uuid : Nat → String) (acc : List ModelContent × List ToolCall × Nat)
    (c : OllamaRespToolCall) : List ModelContent × List ToolCall × Nat :=
  let tc : ToolCall := ⟨uuid acc.2.2, c.function.name, c.function.arguments⟩
  (acc.1 ++ [ModelContent.toolCall tc none], acc.2.1 ++ [tc], acc.2.2 + 1)

/-- `modelResultFrom`: push a `TextContent` only when the response content
string is truthy (non-empty); then fold the vendor tool calls with
`respStep`. -/
def modelResultFrom (uuid : Nat → String) (response : ChatResponse) : ModelResult :=
  let base : List ModelContent :=
    if response.message.content != "" then [ModelContent.text ⟨response.message.content⟩]
    else []
  let acc :=
    match response.message.tool_calls with
    | some tcs => tcs.foldl (respStep uuid) (base, [], 0)
    | none => (base, [], 0)
  { modelId := response.model,
    messages := [Message.model acc.1 acc.2.1 response.message.thinking] }

structure OllamaToolCallParam where
  name : String
  arguments : Json

/-- An Ollama wire message; `content = none` models `undefined`. -/
structure OllamaMsg where
  role : String
  content : Option String
  tool_calls : Option (List OllamaToolCallParam) := none
  tool_name : Option String := none

/-- Flatten system/user contents to a string
(`contents.map(c => c.text).join("")`). -/
def flattenSU : SUContents → String
  | SUContents.str s => s
  | SUContents.texts ts => String.join (ts.map (fun t => t.text))

/-- The tool-result stringification of `ollamaMessagesFrom`: a truthy
`result.error` is rendered as-is if a string else JSON-serialized;
otherwise `result.output` is rendered the same way (an absent output yields
`undefined`). -/
def renderResultContent (r : ToolResultPayload) : Option String :=
  if optTruthy r.error then
    some (match r.error.getD Json.null with
      | Json.str s => s
      | v => jsonStringify v)
  else
    match r.output with
    | some (Json.str s) => some s
    | some v => some (jsonStringify v)
    | none => none

/-- `ollamaMessagesFrom`: canonical messages to Ollama wire messages.
System/user contents are flattened to strings; a model message joins its
text parts and collects tool calls into a `tool_calls` array (omitted when
empty, with falsy props replaced by `{}`); each tool result becomes one
`role:"tool"` message tagged with the tool name. -/
def ollamaMessagesFrom (messages : List Message) : List OllamaMsg :=
  messages.foldl (fun acc m =>
    match m with
    | Message.system c => acc ++ [{ role := "system", content := some (flattenSU c) }]
    | Message.user c => acc ++ [{ role := "user", content := some (flattenSU c) }]
    | Message.model contents _ _ =>
        let st := contents.foldl (fun (st : List String × List OllamaToolCallParam) c =>
          match c with
          | ModelContent.text t => (st.1 ++ [t.text], st.2)
          | ModelContent.toolCall tc _ =>
              (st.1, st.2 ++ [⟨tc.name, if jsTruthy tc.props then tc.props else Json.obj []⟩]))
          ([], [])
        acc ++ [{ role := "assistant", content := some (String.join st.1),
                  tool_calls := if st.2.length > 0 then some st.2 else none }]
    | Message.tool contents =>
        contents.foldl (fun a c =>
          match c with
          | ToolMsgContent.toolCall _ _ => a
          | ToolMsgContent.toolResult r =>
              a ++ [{ role := "tool", content := renderResultContent r.result,
                      tool_name := some r.name }]) acc) []

end OllamaM

/-! ## Gemini-style adapter (two revisions of the response parser) -/

/-- A vendor function-call part field (`id`, `name`, `args`, each possibly
absent). -/
structure GFunctionCall where
  id : Option String := none
  name : Option String := none
  args : Option Json := none

/-- A part of a Gemini candidate's content. -/
structure GPart where
  text : Option String := none
  functionCall : Option GFunctionCall := none
  thoughtSignature : Option String := none

structure GContent where
  parts : Option (List GPart) := none

structure Candidate where
  content : Option GContent := none

/-- The mutable model message being built by `messagesFrom`, plus the count
of generated UUIDs (modelling successive `crypto.randomUUID()` draws). -/
structure GAccum where
  contents : List ModelContent := []
  toolCalls : List ToolCall := []
  counter : Nat := 0

/-- One part-processing step of the part_001 revision of the Gemini
`messagesFrom`: push a `TextContent` for truthy text; for a function call
with a truthy name, push the same tool-call object (id defaulted to a fresh
UUID, args defaulted to `{}`) into `contents` (with the `thoughtSignature`
passthrough as `reasoning`) and `toolCalls`; a function call without a name
is skipped with a diagnostic. -/
def Gemini1.stepPart (uuid : Nat → String) (acc : GAccum) (p : GPart) : GAccum :=
  let acc1 := if truthyStr p.text
    then { acc with contents := acc.contents ++ [ModelContent.text ⟨p.text.getD ""⟩] }
    else acc
  match p.functionCall with
  | none => acc1
  | some fc =>
    if truthyStr fc.name then
      let id := if truthyStr fc.id then fc.id.getD "" else uuid acc1.counter
      let counter2 := if truthyStr fc.id then acc1.counter else acc1.counter + 1
      let args := match fc.args with
        | some v => if jsTruthy v then v else Json.obj []
        | none => Json.obj []
      let tc : ToolCall := ⟨id, fc.name.getD "", args⟩
      { contents := acc1.contents ++ [ModelContent.toolCall tc p.thoughtSignature],
        toolCalls := acc1.toolCalls ++ [tc],
        counter := counter2 }
    else acc1

/-- `messagesFrom` (part_001 revision): no candidates yields an empty
message list; otherwise exactly the first candidate is folded into a single
model message. -/
def Gemini1.messagesFrom (uuid : Nat → String) (candidates : Option (List Candidate)) :
    List Message :=
  match candidates with
  | none => []
  | some [] => []
  | some (candidate :: _) =>
    let parts := (candidate.content.bind GContent.parts).getD []
    let acc := parts.foldl (Gemini1.stepPart uuid) {}
    [Message.model acc.contents acc.toolCalls none]

/-- One part-processing step of the part_000 revision: identical to the
part_001 revision except that no `thoughtSignature`/`reasoning` passthrough
exists. -/
def Gemini0.stepPart (uuid : Nat → String) (acc : GAccum) (p : GPart) : GAccum :=
  let acc1 := if truthyStr p.text
    then { acc with contents := acc.contents ++ [ModelContent.text ⟨p.text.getD ""⟩] }
    else acc
  match p.functionCall with
  | none => acc1
  | some fc =>
    if truthyStr fc.name then
      let id := if truthyStr fc.id then fc.id.getD "" else uuid acc1.counter
      let counter2 := if truthyStr fc.id then acc1.counter else acc1.counter + 1
      let args := match fc.args with
        | some v => if jsTruthy v then v else Json.obj []
        | none => Json.obj []
      let tc : ToolCall := ⟨id, fc.name.getD "", args⟩
      { contents := acc1.contents ++ [ModelContent.toolCall tc none],
        toolCalls := acc1.toolCalls ++ [tc],
        counter := counter2 }
    else acc1

/-- `messagesFrom` (part_000 revision). -/
def Gemini0.messagesFrom (uuid : Nat → String) (candidates : Option (List Candidate)) :
    List Message :=
  match candidates with
  | none => []
  | some [] => []
  | some (candidate :: _) =>
    let parts := (candidate.content.bind GContent.parts).getD []
    let acc := parts.foldl (Gemini0.stepPart uuid) {}
    [Message.model acc.contents acc.toolCalls none]

/-! ## C8, C9, C10: Gemini/Ollama response parsing claims -/

/-- C8: both revisions of the Gemini response parser return an empty
message list when there are no candidates (absent or empty array, not an
error), and otherwise build a single model message from exactly the first
candidate, ignoring all further candidates. -/
theorem c8_first_candidate_selection :
    (∀ g, Gemini1.messagesFrom g none = [] ∧ Gemini1.messagesFrom g (some []) = [])
    ∧ (∀ g c rest, Gemini1.messagesFrom g (some (c :: rest)) = Gemini1.messagesFrom g (some [c])
        ∧ (Gemini1.messagesFrom g (some (c :: rest))).length = 1)
    ∧ (∀ g, Gemini0.messagesFrom g none = [] ∧ Gemini0.messagesFrom g (some []) = [])
    ∧ (∀ g c rest, Gemini0.messagesFrom g (some (c :: rest)) = Gemini0.messagesFrom g (some [c])
        ∧ (Gemini0.messagesFrom g (some (c :: rest))).length = 1) :=
  ⟨fun _ => ⟨rfl, rfl⟩, fun _ _ _ => ⟨rfl, rfl⟩, fun _ => ⟨rfl, rfl⟩, fun _ _ _ => ⟨rfl, rfl⟩⟩

/-- C9: in the part_001 Gemini parser, a part whose function call has no
name contributes no tool call, but parsing continues: the result is the
same as if that part carried no function call at all (its text, and every
part before and after it, are still processed). -/
theorem c9_nameless_call_dropped_rest_processed :
    ∀ (g : Nat → String) (before after : List GPart) (p : GPart) (fc : GFunctionCall),
      p.functionCall = some fc → fc.name = none →
      Gemini1.messagesFrom g (some [⟨some ⟨some (before ++ p :: after)⟩⟩])
        = Gemini1.messagesFrom g
            (some [⟨some ⟨some (before ++ { p with functionCall := none } :: after)⟩⟩]) := by
  intro g before after p fc hp hname
  have hstep : ∀ acc, Gemini1.stepPart g acc p
      = Gemini1.stepPart g acc { p with functionCall := none } := by
    intro acc
    simp [Gemini1.stepPart, hp, hname, truthyStr]
  simp only [Gemini1.messagesFrom, Option.bind, Option.getD, List.foldl_append, List.foldl_cons,
    hstep]

/-- Witness for C9 at a concrete candidate: text before, a nameless
function call (with text on the same part), and a named call after; the
parse equals the parse with the nameless call removed. -/
theorem c9_witness :
    Gemini1.messagesFrom (fun _ => "u")
        (some [⟨some ⟨some [⟨some "A", none, none⟩,
          ⟨some "B", some ⟨none, none, none⟩, none⟩,
          ⟨none, some ⟨none, some "f", none⟩, none⟩]⟩⟩])
      = Gemini1.messagesFrom (fun _ => "u")
          (some [⟨some ⟨some [⟨some "A", none, none⟩,
            ⟨some "B", none, none⟩,
            ⟨none, some ⟨none, some "f", none⟩, none⟩]⟩⟩]) :=
  c9_nameless_call_dropped_rest_processed (fun _ => "u")
    [⟨some "A", none, none⟩] [⟨none, some ⟨none, some "f", none⟩, none⟩]
    ⟨some "B", some ⟨none, none, none⟩, none⟩ ⟨none, none, none⟩ rfl rfl

/-- Contents hold no `TextContent` entry. -/
def noTextContent (cs : List ModelContent) : Bool :=
  cs.all (fun c => match c with
    | ModelContent.text _ => false
    | _ => true)

/-- A message (if it is a model message) holds no `TextContent`. -/
def msgNoText : Message → Bool
  | Message.model cs _ _ => noTextContent cs
  | _ => true

/-- The Ollama tool-call fold never adds a `TextContent`. -/
theorem ollama_fold_no_text (uuid : Nat → String) :
    ∀ (tcs : List OllamaM.OllamaRespToolCall) (acc : List ModelContent × List ToolCall × Nat),
      noTextContent acc.1 = true →
      noTextContent (tcs.foldl (OllamaM.respStep uuid) acc).1 = true := by
  intro tcs
  induction tcs with
  | nil => intro acc h; exact h
  | cons c rest ih =>
      intro acc h
      refine ih _ ?_
      simp only [OllamaM.respStep, noTextContent, List.all_append] at h ⊢
      simp [h]

/-- C10: an empty text part is silently dropped.  In the part_001 Gemini
parser a part with `text: ""` behaves exactly like a part with no text (so
a candidate whose only part is empty text yields a model message with no
contents); in the Ollama parser a response whose `content` is `""` yields a
model message with no `TextContent` at all (only tool calls, if any). -/
theorem c10_empty_text_dropped :
    (∀ g (s : GAccum) (p : GPart), p.text = some "" →
      Gemini1.stepPart g s p = Gemini1.stepPart g s { p with text := none })
    ∧ (∀ g, Gemini1.messagesFrom g (some [⟨some ⟨some [⟨some "", none, none⟩]⟩⟩])
        = [Message.model [] [] none])
    ∧ (∀ uuid (resp : OllamaM.ChatResponse), resp.message.content = "" →
      ((OllamaM.modelResultFrom uuid resp).messages.all msgNoText) = true)
    ∧ (OllamaM.modelResultFrom (fun _ => "u") ⟨"m", ⟨"", none, none⟩⟩
        = ⟨"m", [Message.model [] [] none]⟩) := by
  refine ⟨?_, fun g => rfl, ?_, rfl⟩
  · intro g s p hp
    simp [Gemini1.stepPart, hp, truthyStr]
  · intro uuid resp h
    unfold OllamaM.modelResultFrom
    rw [h]
    simp only [bne_self_eq_false, if_false]
    cases htc : resp.message.tool_calls with
    | none => rfl
    | some tcs =>
        have := ollama_fold_no_text uuid tcs ([], [], 0) rfl
        simp [List.all, msgNoText, this]

/-- Witness for C10: the Gemini empty-text step equality at a concrete
part, and the Ollama no-text property at a concrete response carrying one
tool call and empty content. -/
theorem c10_witness :
    Gemini1.stepPart (fun _ => "u") {} ⟨some "", none, none⟩
      = Gemini1.stepPart (fun _ => "u") {} ⟨none, none, none⟩
    ∧ ((OllamaM.modelResultFrom (fun _ => "u")
        ⟨"m", ⟨"", none, some [⟨⟨"f", Json.obj []⟩⟩]⟩⟩).messages.all msgNoText) = true :=
  ⟨c10_empty_text_dropped.1 (fun _ => "u") {} ⟨some "", none, none⟩ rfl,
   c10_empty_text_dropped.2.2.1 (fun _ => "u") ⟨"m", ⟨"", none, some [⟨⟨"f", Json.obj []⟩⟩]⟩⟩ rfl⟩

/-! ## C2: tool-result stringification -/

/-- C2 counterexample: the claim says a present `result.error` is rendered
as-is if a string and JSON-serialized otherwise, for all vendors requiring
string content.  The Anthropic adapter instead renders errors with the
JavaScript `String(...)` coercion, so the object error `{a: 1}` becomes
`"[object Object]"`, not its JSON serialization; moreover both adapters
test the error with truthiness, so the present-but-falsy error `""` is
ignored and the output is rendered instead. -/
theorem c2_counterexample_string_coercion :
    AnthropicM.anthropicMessagesFrom
        [Message.tool [ToolMsgContent.toolResult ⟨"1", "w",
          { output := none, error := some (Json.obj [("a", Json.num 1)]) }⟩]]
      = [⟨"user", AnthropicM.AnthContent.blocks
          [AnthropicM.AnthBlockParam.toolResult "1" (some "[object Object]") true]⟩]
    ∧ "[object Object]" ≠ jsonStringify (Json.obj [("a", Json.num 1)])
    ∧ AnthropicM.anthropicMessagesFrom
        [Message.tool [ToolMsgContent.toolResult ⟨"2", "w",
          { output := some (Json.str "out"), error := some (Json.str "") }⟩]]
      = [⟨"user", AnthropicM.AnthContent.blocks
          [AnthropicM.AnthBlockParam.toolResult "2" (some "out") false]⟩]
    ∧ OllamaM.ollamaMessagesFrom
        [Message.tool [ToolMsgContent.toolResult ⟨"2", "w",
          { output := some (Json.str "out"), error := some (Json.str "") }⟩]]
      = [{ role := "tool", content := some "out", tool_name := some "w" }] :=
  ⟨rfl, by decide, rfl, rfl⟩

/-- C2 (amended): a `result.error` is preferred over `result.output` only
when truthy; the Ollama adapter renders a truthy error as-is if a string
else JSON-serialized, while the Anthropic adapter renders a truthy error
via the `String(...)` coercion (the identity on strings, e.g.
`"[object Object]"` on plain objects); when the error is absent or falsy,
both adapters render `result.output` as-is if a string and JSON-serialized
otherwise (absent output yielding `undefined` content). -/
theorem c2_stringification_amended :
    ∀ (id name : String) (res : ToolResultPayload) (v : Json),
      (res.error = some v → jsTruthy v = true →
        AnthropicM.anthropicMessagesFrom [Message.tool [ToolMsgContent.toolResult ⟨id, name, res⟩]]
          = [⟨"user", AnthropicM.AnthContent.blocks
              [AnthropicM.AnthBlockParam.toolResult id (some (jsString v)) true]⟩]
        ∧ OllamaM.ollamaMessagesFrom [Message.tool [ToolMsgContent.toolResult ⟨id, name, res⟩]]
          = [{ role := "tool",
               content := some (match v with
                 | Json.str s => s
                 | w => jsonStringify w),
               tool_name := some name }])
      ∧ (optTruthy res.error = false →
        AnthropicM.anthropicMessagesFrom [Message.tool [ToolMsgContent.toolResult ⟨id, name, res⟩]]
          = [⟨"user", AnthropicM.AnthContent.blocks
              [AnthropicM.AnthBlockParam.toolResult id (AnthropicM.renderOutput res.output) false]⟩]
        ∧ OllamaM.ollamaMessagesFrom [Message.tool [ToolMsgContent.toolResult ⟨id, name, res⟩]]
          = [{ role := "tool", content := AnthropicM.renderOutput res.output,
               tool_name := some name }])
      ∧ (∀ s, jsString (Json.str s) = s) := by
  intro id name res v
  refine ⟨?_, ?_, fun _ => rfl⟩
  · intro hv htv
    have he : optTruthy res.error = true := by rw [hv]; exact htv
    constructor
    · simp [AnthropicM.anthropicMessagesFrom, hv, optTruthy, htv]
    · simp only [OllamaM.ollamaMessagesFrom, List.foldl_cons, List.foldl_nil, List.nil_append,
        OllamaM.renderResultContent, he, if_pos]
      rw [hv]
      cases v <;> rfl
  · intro he
    constructor
    · simp [AnthropicM.anthropicMessagesFrom, he]
    · simp only [OllamaM.ollamaMessagesFrom, List.foldl_cons, List.foldl_nil, List.nil_append,
        OllamaM.renderResultContent, he]
      simp only [Bool.false_eq_true, if_false]
      cases hout : res.output with
      | none => rfl
      | some w => cases w <;> rfl

/-- Witness for C2 (amended) at concrete inputs: a truthy string error
passes through as-is on both adapters; a truthy object error renders as
`"[object Object]"` (Anthropic) and as JSON (Ollama); with no error, a
non-string output is JSON-serialized. -/
theorem c2_witness :
    AnthropicM.anthropicMessagesFrom [Message.tool [ToolMsgContent.toolResult ⟨"1", "w",
        { output := none, error := some (Json.str "boom") }⟩]]
      = [⟨"user", AnthropicM.AnthContent.blocks
          [AnthropicM.AnthBlockParam.toolResult "1" (some "boom") true]⟩]
    ∧ OllamaM.ollamaMessagesFrom [Message.tool [ToolMsgContent.toolResult ⟨"2", "w",
        { output := none, error := some (Json.obj [("a", Json.num 1)]) }⟩]]
      = [{ role := "tool", content := some "\x7b\x22a\x22:1\x7d", tool_name := some "w" }]
    ∧ OllamaM.ollamaMessagesFrom [Message.tool [ToolMsgContent.toolResult ⟨"3", "w",
        { output := some (Json.num 5), error := none }⟩]]
      = [{ role := "tool", content := some "5", tool_name := some "w" }] := by
  refine ⟨?_, ?_, ?_⟩
  · exact ((c2_stringification_amended "1" "w"
      { output := none, error := some (Json.str "boom") } (Json.str "boom")).1 rfl rfl).1
  · exact ((c2_stringification_amended "2" "w"
      { output := none, error := some (Json.obj [("a", Json.num 1)]) }
      (Json.obj [("a", Json.num 1)])).1 rfl rfl).2
  · exact ((c2_stringification_amended "3" "w"
      { output := some (Json.num 5), error := none } Json.null).2.1 rfl).2

/-! ## C3: the toolCalls/contents round-trip invariant -/

theorem projToolCalls_append (cs ds : List ModelContent) :
    projToolCalls (cs ++ ds) = projToolCalls cs ++ projToolCalls ds := by
  simp [projToolCalls, List.filterMap_append]

/-- The Gemini part fold preserves `toolCalls = projToolCalls contents`. -/
theorem gemini1_fold_invariant (g : Nat → String) :
    ∀ (parts : List GPart) (acc : GAccum),
      acc.toolCalls = projToolCalls acc.contents →
      (parts.foldl (Gemini1.stepPart g) acc).toolCalls
        = projToolCalls (parts.foldl (Gemini1.stepPart g) acc).contents := by
  intro parts
  induction parts with
  | nil => intro acc h; exact h
  | cons p rest ih =>
      intro acc h
      refine ih _ ?_
      unfold Gemini1.stepPart
      cases hfc : p.functionCall with
      | none =>
          by_cases ht : truthyStr p.text = true <;>
            simp [ht, projToolCalls_append, projToolCalls, h]
      | some fc =>
          by_cases hn : truthyStr fc.name = true <;>
            by_cases ht : truthyStr p.text = true <;>
              simp [hn, ht, projToolCalls_append, projToolCalls, h]

/-- The Anthropic response-block fold preserves the invariant. -/
theorem anthropic_fold_invariant :
    ∀ (blocks : List AnthropicM.AnthRespBlock) (acc : List ModelContent × List ToolCall),
      acc.2 = projToolCalls acc.1 →
      (blocks.foldl AnthropicM.respStep acc).2
        = projToolCalls (blocks.foldl AnthropicM.respStep acc).1 := by
  intro blocks
  induction blocks with
  | nil => intro acc h; exact h
  | cons b rest ih =>
      intro acc h
      refine ih _ ?_
      cases b <;> simp [AnthropicM.respStep, projToolCalls_append, projToolCalls, h]

/-- Every snapshot of the stream fold is the snapshot of some state. -/
theorem snapshotsFrom_shape :
    ∀ (es : List AnthropicM.StreamEvent) (st : AnthropicM.StreamState)
      (s : AnthropicM.StreamSnapshot),
      s ∈ AnthropicM.snapshotsFrom st es → ∃ st2, s = AnthropicM.snapshotOf st2 := by
  intro es
  induction es with
  | nil => intro st s h; simp [AnthropicM.snapshotsFrom] at h
  | cons e rest ih =>
      intro st s h
      simp only [AnthropicM.snapshotsFrom] at h
      by_cases hy : AnthropicM.yieldsSnapshot st e = true
      · rw [if_pos hy] at h
        rcases List.mem_cons.mp h with h | h
        · exact ⟨AnthropicM.stepEvent st e, h⟩
        · exact ih (AnthropicM.stepEvent st e) s h
      · rw [if_neg hy] at h
        exact ih (AnthropicM.stepEvent st e) s h

/-- C3: for every model message built by the part_001 Gemini batch parser,
by the Anthropic batch parser, and for every snapshot yielded by the
Anthropic stream aggregator, the denormalized `toolCalls` list equals the
ordered projection of `contents` onto its tool-call entries. -/
theorem c3_toolcalls_equals_contents_projection :
    (∀ g cands contents toolCalls thinking,
      Message.model contents toolCalls thinking ∈ Gemini1.messagesFrom g cands →
      toolCalls = projToolCalls contents)
    ∧ (∀ (resp : AnthropicM.AnthResponse) contents toolCalls thinking,
      Message.model contents toolCalls thinking ∈ (AnthropicM.modelResultFrom resp).messages →
      toolCalls = projToolCalls contents)
    ∧ (∀ events s, s ∈ AnthropicM.streamIterator events →
      s.toolCalls = projToolCallsO s.contents) := by
  refine ⟨?_, ?_, ?_⟩
  · intro g cands contents toolCalls thinking hmem
    match cands with
    | none => simp [Gemini1.messagesFrom] at hmem
    | some [] => simp [Gemini1.messagesFrom] at hmem
    | some (c :: rest) =>
        simp only [Gemini1.messagesFrom, List.mem_singleton, Message.model.injEq] at hmem
        obtain ⟨h1, h2, _⟩ := hmem
        subst h1
        subst h2
        exact gemini1_fold_invariant g _ {} rfl
  · intro resp contents toolCalls thinking hmem
    simp only [AnthropicM.modelResultFrom, List.mem_singleton, Message.model.injEq] at hmem
    obtain ⟨h1, h2, _⟩ := hmem
    subst h1
    subst h2
    exact anthropic_fold_invariant resp.content ([], []) rfl
  · intro events s hmem
    obtain ⟨st2, rfl⟩ := snapshotsFrom_shape events {} s hmem
    rfl

/-- Witness for C3: a concrete Gemini candidate with one function call, a
concrete Anthropic response with text and one tool_use, and a concrete
one-event stream all satisfy the invariant. -/
theorem c3_witness :
    ([⟨"i", "f", Json.obj []⟩] : List ToolCall)
        = projToolCalls [ModelContent.toolCall ⟨"i", "f", Json.obj []⟩ none]
    ∧ ([⟨"a", "g", Json.num 1⟩] : List ToolCall)
        = projToolCalls [ModelContent.text ⟨"hi"⟩, ModelContent.toolCall ⟨"a", "g", Json.num 1⟩ none]
    ∧ (AnthropicM.snapshotOf
          { blocks := [some (ModelContent.toolCall ⟨"i", "f", Json.obj []⟩ none)],
            buffers := [(0, "")] }).toolCalls
        = projToolCallsO (AnthropicM.snapshotOf
            { blocks := [some (ModelContent.toolCall ⟨"i", "f", Json.obj []⟩ none)],
              buffers := [(0, "")] }).contents := by
  refine ⟨?_, ?_, ?_⟩
  · exact c3_toolcalls_equals_contents_projection.1 (fun _ => "u")
      (some [⟨some ⟨some [⟨none, some ⟨some "i", some "f", none⟩, none⟩]⟩⟩])
      [ModelContent.toolCall ⟨"i", "f", Json.obj []⟩ none] [⟨"i", "f", Json.obj []⟩] none
      (List.Mem.head _)
  · exact c3_toolcalls_equals_contents_projection.2.1
      ⟨"m", [AnthropicM.AnthRespBlock.text "hi", AnthropicM.AnthRespBlock.toolUse "a" "g" (Json.num 1)]⟩
      [ModelContent.text ⟨"hi"⟩, ModelContent.toolCall ⟨"a", "g", Json.num 1⟩ none]
      [⟨"a", "g", Json.num 1⟩] none (List.Mem.head _)
  · exact c3_toolcalls_equals_contents_projection.2.2
      [AnthropicM.StreamEvent.contentBlockStart 0 (AnthropicM.StartBlock.toolUseBlock "i" "f")]
      (AnthropicM.snapshotOf
        { blocks := [some (ModelContent.toolCall ⟨"i", "f", Json.obj []⟩ none)],
          buffers := [(0, "")] })
      (List.Mem.head _)

/-! ## C4: partial-JSON tolerance of the stream aggregator -/

/-- C4: on an `input_json_delta` for an initialized tool-call block, the
fragment is appended to that block's accumulation buffer and the whole
buffer is parsed; on parse failure the previous `props` is kept unchanged;
on parse success `props` is replaced by the parsed value; in both cases the
failure never escapes — the event still yields its snapshot and the fold
continues with the remaining events.  (A delta at an uninitialized index is
skipped by `if (!block) continue`, contributing no snapshot and no state
change.)  In particular the two deltas of the claim give `props = {}` after
the first and `props = {a: 1}` after the second. -/
theorem c4_partial_json_tolerance :
    (∀ (st : AnthropicM.StreamState) (i : Nat) (tc : ToolCall) (r : Option String) (frag : String),
      st.blocks.getD i none = some (ModelContent.toolCall tc r) →
      jsonParse ((AnthropicM.mapGet st.buffers i).getD "" ++ frag) = none →
      AnthropicM.stepEvent st (AnthropicM.StreamEvent.contentBlockDelta i
          (AnthropicM.DeltaEvent.inputJsonDelta frag))
        = { blocks := AnthropicM.setIdx st.blocks i (ModelContent.toolCall tc r),
            buffers := AnthropicM.mapSet st.buffers i
              ((AnthropicM.mapGet st.buffers i).getD "" ++ frag) })
    ∧ (∀ (st : AnthropicM.StreamState) (i : Nat) (tc : ToolCall) (r : Option String)
        (frag : String) (v : Json),
      st.blocks.getD i none = some (ModelContent.toolCall tc r) →
      jsonParse ((AnthropicM.mapGet st.buffers i).getD "" ++ frag) = some v →
      AnthropicM.stepEvent st (AnthropicM.StreamEvent.contentBlockDelta i
          (AnthropicM.DeltaEvent.inputJsonDelta frag))
        = { blocks := AnthropicM.setIdx st.blocks i (ModelContent.toolCall ⟨tc.id, tc.name, v⟩ r),
            buffers := AnthropicM.mapSet st.buffers i
              ((AnthropicM.mapGet st.buffers i).getD "" ++ frag) })
    ∧ (∀ (st : AnthropicM.StreamState) (i : Nat) (tc : ToolCall) (r : Option String)
        (frag : String) (es : List AnthropicM.StreamEvent),
      st.blocks.getD i none = some (ModelContent.toolCall tc r) →
      AnthropicM.snapshotsFrom st (AnthropicM.StreamEvent.contentBlockDelta i
          (AnthropicM.DeltaEvent.inputJsonDelta frag) :: es)
        = AnthropicM.snapshotOf (AnthropicM.stepEvent st (AnthropicM.StreamEvent.contentBlockDelta i
            (AnthropicM.DeltaEvent.inputJsonDelta frag)))
          :: AnthropicM.snapshotsFrom (AnthropicM.stepEvent st
              (AnthropicM.StreamEvent.contentBlockDelta i
                (AnthropicM.DeltaEvent.inputJsonDelta frag))) es)
    ∧ (∀ (st : AnthropicM.StreamState) (i : Nat) (d : AnthropicM.DeltaEvent)
        (es : List AnthropicM.StreamEvent),
      st.blocks.getD i none = none →
      AnthropicM.snapshotsFrom st (AnthropicM.StreamEvent.contentBlockDelta i d :: es)
        = AnthropicM.snapshotsFrom st es)
    ∧ ((AnthropicM.streamIterator
          [AnthropicM.StreamEvent.contentBlockStart 0 (AnthropicM.StartBlock.toolUseBlock "1" "f"),
           AnthropicM.StreamEvent.contentBlockDelta 0
             (AnthropicM.DeltaEvent.inputJsonDelta "\x7b\x22a\x22:1"),
           AnthropicM.StreamEvent.contentBlockDelta 0
             (AnthropicM.DeltaEvent.inputJsonDelta "\x7d")]).map
          AnthropicM.StreamSnapshot.contents
        = [[some (ModelContent.toolCall ⟨"1", "f", Json.obj []⟩ none)],
           [some (ModelContent.toolCall ⟨"1", "f", Json.obj []⟩ none)],
           [some (ModelContent.toolCall ⟨"1", "f", Json.obj [("a", Json.num 1)]⟩ none)]]) := by
  refine ⟨?_, ?_, ?_, ?_, rfl⟩
  · intro st i tc r frag hb hp
    simp only [AnthropicM.stepEvent, hb, hp]
  · intro st i tc r frag v hb hp
    simp only [AnthropicM.stepEvent, hb, hp]
  · intro st i tc r frag es hb
    simp only [AnthropicM.snapshotsFrom, AnthropicM.yieldsSnapshot, hb, Option.isSome_some,
      if_true]
  · intro st i d es hb
    have hstep : AnthropicM.stepEvent st (AnthropicM.StreamEvent.contentBlockDelta i d) = st := by
      simp only [AnthropicM.stepEvent, hb]
    simp only [AnthropicM.snapshotsFrom, AnthropicM.yieldsSnapshot, hb, Option.isSome_none,
      Bool.false_eq_true, if_false, hstep]

/-- Witness for C4 at a concrete state: a tool-call block at index 0 with
buffered text `"\x7b"`; the non-JSON fragment `"x"` leaves `props`
untouched, while the fragment `"\x22a\x22:1\x7d"` completes the object and
replaces `props`; the delta on the initialized block still yields its
snapshot, and a delta on an empty state yields none. -/
theorem c4_witness :
    AnthropicM.stepEvent
        { blocks := [some (ModelContent.toolCall ⟨"1", "f", Json.obj []⟩ none)],
          buffers := [(0, "\x7b")] }
        (AnthropicM.StreamEvent.contentBlockDelta 0 (AnthropicM.DeltaEvent.inputJsonDelta "x"))
      = { blocks := [some (ModelContent.toolCall ⟨"1", "f", Json.obj []⟩ none)],
          buffers := [(0, "\x7bx")] }
    ∧ AnthropicM.stepEvent
        { blocks := [some (ModelContent.toolCall ⟨"1", "f", Json.obj []⟩ none)],
          buffers := [(0, "\x7b")] }
        (AnthropicM.StreamEvent.contentBlockDelta 0
          (AnthropicM.DeltaEvent.inputJsonDelta "\x22a\x22:1\x7d"))
      = { blocks := [some (ModelContent.toolCall ⟨"1", "f", Json.obj [("a", Json.num 1)]⟩ none)],
          buffers := [(0, "\x7b\x22a\x22:1\x7d")] }
    ∧ AnthropicM.snapshotsFrom
        { blocks := [some (ModelContent.toolCall ⟨"1", "f", Json.obj []⟩ none)],
          buffers := [(0, "\x7b")] }
        [AnthropicM.StreamEvent.contentBlockDelta 0 (AnthropicM.DeltaEvent.inputJsonDelta "x")]
      = [AnthropicM.snapshotOf (AnthropicM.stepEvent
          { blocks := [some (ModelContent.toolCall ⟨"1", "f", Json.obj []⟩ none)],
            buffers := [(0, "\x7b")] }
          (AnthropicM.StreamEvent.contentBlockDelta 0 (AnthropicM.DeltaEvent.inputJsonDelta "x")))]
    ∧ AnthropicM.snapshotsFrom {}
        [AnthropicM.StreamEvent.contentBlockDelta 0 (AnthropicM.DeltaEvent.textDelta "z")]
      = [] := by
  refine ⟨?_, ?_, ?_, ?_⟩
  · exact c4_partial_json_tolerance.1
      { blocks := [some (ModelContent.toolCall ⟨"1", "f", Json.obj []⟩ none)],
        buffers := [(0, "\x7b")] }
      0 ⟨"1", "f", Json.obj []⟩ none "x" rfl rfl
  · exact c4_partial_json_tolerance.2.1
      { blocks := [some (ModelContent.toolCall ⟨"1", "f", Json.obj []⟩ none)],
        buffers := [(0, "\x7b")] }
      0 ⟨"1", "f", Json.obj []⟩ none "\x22a\x22:1\x7d" (Json.obj [("a", Json.num 1)]) rfl rfl
  · exact c4_partial_json_tolerance.2.2.1
      { blocks := [some (ModelContent.toolCall ⟨"1", "f", Json.obj []⟩ none)],
        buffers := [(0, "\x7b")] }
      0 ⟨"1", "f", Json.obj []⟩ none "x" [] rfl
  · exact c4_partial_json_tolerance.2.2.2.1 {} 0 (AnthropicM.DeltaEvent.textDelta "z") [] rfl

/-! ## C5: cumulative (monotonic) snapshots -/

/-- Whether an event is a text or tool_use `content_block_start` at the
given index (the only events that (re)initialize a block). -/
def isRealStartAt (idx : Nat) : AnthropicM.StreamEvent → Bool
  | AnthropicM.StreamEvent.contentBlockStart j (AnthropicM.StartBlock.textBlock _) => j == idx
  | AnthropicM.StreamEvent.contentBlockStart j (AnthropicM.StartBlock.toolUseBlock _ _) => j == idx
  | _ => false

/-- Each index receives at most one (re)initializing block-start over the
whole event sequence. -/
def wellStarted (events : List AnthropicM.StreamEvent) : Prop :=
  ∀ i, events.countP (isRealStartAt i) ≤ 1

/-- How one block slot may evolve across the fold: an unset slot may become
anything; a text block only ever extends on the right; a tool-call block
keeps its `id`, `name` and `reasoning`, only its `props` may change. -/
def blockEvolves : Option ModelContent → Option ModelContent → Prop
  | none, _ => True
  | some (ModelContent.text t), o => ∃ s, o = some (ModelContent.text ⟨t.text ++ s⟩)
  | some (ModelContent.toolCall tc r), o =>
      ∃ p, o = some (ModelContent.toolCall ⟨tc.id, tc.name, p⟩ r)

def stateEvolves (s1 s2 : AnthropicM.StreamState) : Prop :=
  ∀ i, blockEvolves (s1.blocks.getD i none) (s2.blocks.getD i none)

def snapEvolves (sa sb : AnthropicM.StreamSnapshot) : Prop :=
  ∀ i, blockEvolves (sa.contents.getD i none) (sb.contents.getD i none)

/-- The remaining events contain no start for any already-set index, and at
most one start for any index. -/
def noRestart (st : AnthropicM.StreamState) (events : List AnthropicM.StreamEvent) : Prop :=
  ∀ i, events.countP (isRealStartAt i)
    + (if (st.blocks.getD i none).isSome then 1 else 0) ≤ 1

theorem getD_setIdx_self (i : Nat) :
    ∀ (l : List (Option ModelContent)) (b : ModelContent),
      (AnthropicM.setIdx l i b).getD i none = some b := by
  induction i with
  | zero => intro l b; cases l <;> rfl
  | succ n ih =>
      intro l b
      cases l with
      | nil => simpa [AnthropicM.setIdx, List.getD_cons_succ] using ih [] b
      | cons x xs => simpa [AnthropicM.setIdx, List.getD_cons_succ] using ih xs b

theorem getD_setIdx_ne (i : Nat) :
    ∀ (l : List (Option ModelContent)) (b : ModelContent) (j : Nat), j ≠ i →
      (AnthropicM.setIdx l i b).getD j none = l.getD j none := by
  induction i with
  | zero =>
      intro l b j hj
      cases j with
      | zero => exact absurd rfl hj
      | succ m =>
          cases l with
          | nil => simp [AnthropicM.setIdx, List.getD_cons_succ, List.getD_nil]
          | cons x xs => simp [AnthropicM.setIdx, List.getD_cons_succ]
  | succ n ih =>
      intro l b j hj
      cases l with
      | nil =>
          cases j with
          | zero => simp [AnthropicM.setIdx, List.getD_cons_zero, List.getD_nil]
          | succ m =>
              have hmn : m ≠ n := by omega
              simpa [AnthropicM.setIdx, List.getD_cons_succ, List.getD_nil] using ih [] b m hmn
      | cons x xs =>
          cases j with
          | zero => simp [AnthropicM.setIdx, List.getD_cons_zero]
          | succ m =>
              have hmn : m ≠ n := by omega
              simpa [AnthropicM.setIdx, List.getD_cons_succ] using ih xs b m hmn

theorem blockEvolves_refl : ∀ b, blockEvolves b b := by
  intro b
  cases b with
  | none => trivial
  | some mc =>
      cases mc with
      | text t => exact ⟨"", by rw [String.append_empty]⟩
      | toolCall tc r => exact ⟨tc.props, rfl⟩

theorem blockEvolves_trans :
    ∀ a b c, blockEvolves a b → blockEvolves b c → blockEvolves a c := by
  intro a b c hab hbc
  cases a with
  | none => trivial
  | some mc =>
      cases mc with
      | text t =>
          obtain ⟨s1, h1⟩ := hab
          subst h1
          obtain ⟨s2, h2⟩ := hbc
          exact ⟨s1 ++ s2, by rw [h2, String.append_assoc]⟩
      | toolCall tc r =>
          obtain ⟨p1, h1⟩ := hab
          subst h1
          obtain ⟨p2, h2⟩ := hbc
          exact ⟨p2, h2⟩

/-- One step evolves the state, provided the event does not restart an
already-set index. -/
theorem stepEvent_evolves (st : AnthropicM.StreamState) (e : AnthropicM.StreamEvent)
    (h : ∀ i, isRealStartAt i e = true → st.blocks.getD i none = none) :
    stateEvolves st (AnthropicM.stepEvent st e) := by
  intro j
  cases e with
  | contentBlockStart i sb =>
      cases sb with
      | textBlock t =>
          simp only [AnthropicM.stepEvent]
          by_cases hji : j = i
          · subst hji
            rw [h j (by simp [isRealStartAt])]
            trivial
          · rw [getD_setIdx_ne i st.blocks _ j hji]
            exact blockEvolves_refl _
      | toolUseBlock id name =>
          simp only [AnthropicM.stepEvent]
          by_cases hji : j = i
          · subst hji
            rw [h j (by simp [isRealStartAt])]
            trivial
          · rw [getD_setIdx_ne i st.blocks _ j hji]
            exact blockEvolves_refl _
      | otherStart => exact blockEvolves_refl _
  | contentBlockDelta i d =>
      cases hb : st.blocks.getD i none with
      | none =>
          simp only [AnthropicM.stepEvent, hb]
          exact blockEvolves_refl _
      | some b =>
          cases d with
          | textDelta t =>
              cases b with
              | text tc =>
                  simp only [AnthropicM.stepEvent, hb]
                  by_cases hji : j = i
                  · subst hji
                    rw [hb, getD_setIdx_self]
                    exact ⟨t, rfl⟩
                  · rw [getD_setIdx_ne i st.blocks _ j hji]
                    exact blockEvolves_refl _
              | toolCall tc r =>
                  simp only [AnthropicM.stepEvent, hb]
                  exact blockEvolves_refl _
          | inputJsonDelta frag =>
              cases b with
              | text tc =>
                  simp only [AnthropicM.stepEvent, hb]
                  exact blockEvolves_refl _
              | toolCall tc r =>
                  simp only [AnthropicM.stepEvent, hb]
                  by_cases hji : j = i
                  · subst hji
                    rw [hb, getD_setIdx_self]
                    exact ⟨_, rfl⟩
                  · rw [getD_setIdx_ne i st.blocks _ j hji]
                    exact blockEvolves_refl _
          | otherDelta =>
              simp only [AnthropicM.stepEvent, hb]
              exact blockEvolves_refl _
  | otherEvent => exact blockEvolves_refl _

/-- A block slot set after a step was already set, unless the step was a
(re)initializing start at that index. -/
theorem stepEvent_some_source (st : AnthropicM.StreamState) (e : AnthropicM.StreamEvent)
    (i : Nat) :
    ((AnthropicM.stepEvent st e).blocks.getD i none).isSome = true →
    (st.blocks.getD i none).isSome = true ∨ isRealStartAt i e = true := by
  intro h
  cases e with
  | contentBlockStart k sb =>
      cases sb with
      | textBlock t =>
          by_cases hik : i = k
          · right; subst hik; simp [isRealStartAt]
          · left
            simp only [AnthropicM.stepEvent] at h
            rwa [getD_setIdx_ne k st.blocks _ i (by omega)] at h
      | toolUseBlock id name =>
          by_cases hik : i = k
          · right; subst hik; simp [isRealStartAt]
          · left
            simp only [AnthropicM.stepEvent] at h
            rwa [getD_setIdx_ne k st.blocks _ i (by omega)] at h
      | otherStart => left; exact h
  | contentBlockDelta k d =>
      left
      cases hb : st.blocks.getD k none with
      | none =>
          simp only [AnthropicM.stepEvent, hb] at h
          exact h
      | some b =>
          cases d with
          | textDelta t =>
              cases b with
              | text tc =>
                  by_cases hik : i = k
                  · subst hik; rw [hb]; rfl
                  · simp only [AnthropicM.stepEvent, hb] at h
                    rwa [getD_setIdx_ne k st.blocks _ i (by omega)] at h
              | toolCall tc r =>
                  simp only [AnthropicM.stepEvent, hb] at h
                  exact h
          | inputJsonDelta frag =>
              cases b with
              | text tc =>
                  simp only [AnthropicM.stepEvent, hb] at h
                  exact h
              | toolCall tc r =>
                  by_cases hik : i = k
                  · subst hik; rw [hb]; rfl
                  · simp only [AnthropicM.stepEvent, hb] at h
                    rwa [getD_setIdx_ne k st.blocks _ i (by omega)] at h
          | otherDelta =>
              simp only [AnthropicM.stepEvent, hb] at h
              exact h
  | otherEvent => left; exact h

/-- Under `noRestart`, the head event never restarts a set index. -/
theorem noRestart_head (st : AnthropicM.StreamState) (e : AnthropicM.StreamEvent)
    (es : List AnthropicM.StreamEvent) (h : noRestart st (e :: es)) :
    ∀ i, isRealStartAt i e = true → st.blocks.getD i none = none := by
  intro i hs
  have hi := h i
  rw [List.countP_cons, hs] at hi
  cases ho : st.blocks.getD i none with
  | none => rfl
  | some b =>
      rw [ho] at hi
      simp at hi

/-- `noRestart` is preserved along the fold. -/
theorem noRestart_step (st : AnthropicM.StreamState) (e : AnthropicM.StreamEvent)
    (es : List AnthropicM.StreamEvent) (h : noRestart st (e :: es)) :
    noRestart (AnthropicM.stepEvent st e) es := by
  intro i
  have hi := h i
  rw [List.countP_cons] at hi
  cases hnew : ((AnthropicM.stepEvent st e).blocks.getD i none).isSome with
  | false =>
      simp only [hnew, Bool.false_eq_true, if_false]
      omega
  | true =>
      simp only [hnew, if_true]
      rcases stepEvent_some_source st e i hnew with h3 | h3
      · simp only [h3, if_true] at hi
        omega
      · simp only [h3, if_true] at hi
        omega

/-- Every later snapshot of the fold evolves from the starting state. -/
theorem snapshotsFrom_evolves :
    ∀ (es : List AnthropicM.StreamEvent) (st : AnthropicM.StreamState) (k : Nat)
      (s : AnthropicM.StreamSnapshot),
      noRestart st es →
      (AnthropicM.snapshotsFrom st es).get? k = some s →
      ∀ i, blockEvolves (st.blocks.getD i none) (s.contents.getD i none) := by
  intro es
  induction es with
  | nil => intro st k s _ hk; simp [AnthropicM.snapshotsFrom] at hk
  | cons e rest ih =>
      intro st k s hP hk
      simp only [AnthropicM.snapshotsFrom] at hk
      by_cases hy : AnthropicM.yieldsSnapshot st e = true
      · rw [if_pos hy] at hk
        cases k with
        | zero =>
            simp only [List.get?] at hk
            cases hk
            intro i
            exact stepEvent_evolves st e (noRestart_head st e rest hP) i
        | succ n =>
            intro i
            have h1 := stepEvent_evolves st e (noRestart_head st e rest hP) i
            have h2 := ih (AnthropicM.stepEvent st e) n s (noRestart_step st e rest hP)
              (by simpa [List.get?] using hk) i
            exact blockEvolves_trans _ _ _ h1 h2
      · rw [if_neg hy] at hk
        intro i
        have h1 := stepEvent_evolves st e (noRestart_head st e rest hP) i
        have h2 := ih (AnthropicM.stepEvent st e) k s (noRestart_step st e rest hP) hk i
        exact blockEvolves_trans _ _ _ h1 h2

/-- Any two snapshots of the fold, in order, are related pointwise by
`blockEvolves`. -/
theorem snapshots_monotone :
    ∀ (es : List AnthropicM.StreamEvent) (st : AnthropicM.StreamState) (a b : Nat)
      (sa sb : AnthropicM.StreamSnapshot),
      noRestart st es → a ≤ b →
      (AnthropicM.snapshotsFrom st es).get? a = some sa →
      (AnthropicM.snapshotsFrom st es).get? b = some sb →
      snapEvolves sa sb := by
  intro es
  induction es with
  | nil => intro st a b sa sb _ _ ha _; simp [AnthropicM.snapshotsFrom] at ha
  | cons e rest ih =>
      intro st a b sa sb hP hab ha hb
      simp only [AnthropicM.snapshotsFrom] at ha hb
      by_cases hy : AnthropicM.yieldsSnapshot st e = true
      · rw [if_pos hy] at ha hb
        cases a with
        | zero =>
            simp only [List.get?] at ha
            cases ha
            cases b with
            | zero =>
                simp only [List.get?] at hb
                cases hb
                intro i
                exact blockEvolves_refl _
            | succ m =>
                have h2 := snapshotsFrom_evolves rest (AnthropicM.stepEvent st e) m sb
                  (noRestart_step st e rest hP)
                  (by simpa [List.get?] using hb)
                intro i
                exact h2 i
        | succ n =>
            cases b with
            | zero => omega
            | succ m =>
                exact ih (AnthropicM.stepEvent st e) n m sa sb (noRestart_step st e rest hP)
                  (by omega)
                  (by simpa [List.get?] using ha)
                  (by simpa [List.get?] using hb)
      · rw [if_neg hy] at ha hb
        exact ih (AnthropicM.stepEvent st e) a b sa sb (noRestart_step st e rest hP) hab ha hb

/-- C5 counterexample: the claim quantifies over every event sequence, but
a second `content_block_start` at an already-used index re-initializes the
block: after yielding a snapshot whose block 0 reads `"Hel"`, the stream
`[start(0,text,""), delta(0,"Hel"), start(0,text,"")]` yields a later
snapshot whose block 0 reads `""`, which does not retain the previously
emitted characters. -/
theorem c5_counterexample_restart :
    (AnthropicM.streamIterator
        [AnthropicM.StreamEvent.contentBlockStart 0 (AnthropicM.StartBlock.textBlock ""),
         AnthropicM.StreamEvent.contentBlockDelta 0 (AnthropicM.DeltaEvent.textDelta "Hel"),
         AnthropicM.StreamEvent.contentBlockStart 0 (AnthropicM.StartBlock.textBlock "")]).map
        AnthropicM.StreamSnapshot.contents
      = [[some (ModelContent.text ⟨""⟩)], [some (ModelContent.text ⟨"Hel"⟩)],
         [some (ModelContent.text ⟨""⟩)]]
    ∧ ∀ s, "Hel" ++ s ≠ "" := by
  constructor
  · rfl
  · intro s h
    have h2 := congrArg String.length h
    rw [String.length_append] at h2
    have h3 : ("Hel" : String).length = 3 := rfl
    have h4 : ("" : String).length = 0 := rfl
    omega

/-- C5 (amended): for every event sequence in which each index receives at
most one block-start, the yielded snapshots are strictly cumulative: once a
text block reads `t`, every subsequent snapshot holds that block with `t`
unchanged at its start; and a tool-call block keeps its `id` and `name`
(and `reasoning`) in every subsequent snapshot, only its `props` may
change. -/
theorem c5_snapshots_cumulative_unique_starts :
    ∀ events, wellStarted events →
      ∀ a b sa sb, a ≤ b →
      (AnthropicM.streamIterator events).get? a = some sa →
      (AnthropicM.streamIterator events).get? b = some sb →
      (∀ i t, sa.contents.getD i none = some (ModelContent.text t) →
        ∃ s, sb.contents.getD i none = some (ModelContent.text ⟨t.text ++ s⟩))
      ∧ (∀ i tc r, sa.contents.getD i none = some (ModelContent.toolCall tc r) →
        ∃ p, sb.contents.getD i none = some (ModelContent.toolCall ⟨tc.id, tc.name, p⟩ r)) := by
  intro events hw a b sa sb hab ha hb
  have hP : noRestart {} events := by
    intro i
    simpa using hw i
  have h := snapshots_monotone events {} a b sa sb hP hab ha hb
  constructor
  · intro i t ht
    have hi := h i
    rw [ht] at hi
    exact hi
  · intro i tc r htc
    have hi := h i
    rw [htc] at hi
    exact hi

/-- Witness for C5 (amended) on the stream `[start(0,text,"H"),
delta(0,"i")]`: the first snapshot's block 0 reads `"H"` and the second
snapshot retains that prefix. -/
theorem c5_witness :
    ∃ s, ([some (ModelContent.text ⟨"Hi"⟩)] : List (Option ModelContent)).getD 0 none
      = some (ModelContent.text ⟨"H" ++ s⟩) := by
  have hw : wellStarted
      [AnthropicM.StreamEvent.contentBlockStart 0 (AnthropicM.StartBlock.textBlock "H"),
       AnthropicM.StreamEvent.contentBlockDelta 0 (AnthropicM.DeltaEvent.textDelta "i")] := by
    intro i
    have hdelta : isRealStartAt i (AnthropicM.StreamEvent.contentBlockDelta 0
        (AnthropicM.DeltaEvent.textDelta "i")) = false := rfl
    have hstart : isRealStartAt i (AnthropicM.StreamEvent.contentBlockStart 0
        (AnthropicM.StartBlock.textBlock "H")) = (0 == i) := rfl
    simp only [List.countP_cons, List.countP_nil, hdelta, hstart, Bool.false_eq_true, if_false]
    split_ifs <;> omega
  exact (c5_snapshots_cumulative_unique_starts
      [AnthropicM.StreamEvent.contentBlockStart 0 (AnthropicM.StartBlock.textBlock "H"),
       AnthropicM.StreamEvent.contentBlockDelta 0 (AnthropicM.DeltaEvent.textDelta "i")]
      hw 0 1
      ⟨[some (ModelContent.text ⟨"H"⟩)], []⟩
      ⟨[some (ModelContent.text ⟨"Hi"⟩)], []⟩
      (by omega) rfl rfl).1 0 ⟨"H"⟩ rfl

/-- C6 counterexample: with one registered tool `"echo"` and a model
message calling `"echo"` then the unknown `"missing"`, the loop completes
with both results in order in one tool message — but the failed call's
result has `result.error` unset (the caught error is wrapped under
`result.output`), so the failure is not converted into an error result in
the spec's sense (`result.error` set). -/
theorem c6_counterexample_error_under_output :
    callTool ⟨[⟨"echo", "d", ⟨fun v => (none, v), Json.obj []⟩, fun v => Except.ok v⟩]⟩
        [Message.model [ModelContent.toolCall ⟨"1", "echo", Json.str "x"⟩ none,
            ModelContent.toolCall ⟨"2", "missing", Json.obj []⟩ none]
          [⟨"1", "echo", Json.str "x"⟩, ⟨"2", "missing", Json.obj []⟩] none]
      = some [Message.model [ModelContent.toolCall ⟨"1", "echo", Json.str "x"⟩ none,
            ModelContent.toolCall ⟨"2", "missing", Json.obj []⟩ none]
          [⟨"1", "echo", Json.str "x"⟩, ⟨"2", "missing", Json.obj []⟩] none,
          Message.tool
            [ToolMsgContent.toolResult
              { id := "1", name := "echo",
                result := { output := some (Json.str "x"), error := none } },
             ToolMsgContent.toolResult
              { id := "2", name := "missing",
                result :=
                  { output := some (Json.obj [("error", Json.str "Tool missing not found")]),
                    error := none } }]]
    ∧ (processToolCall ⟨[⟨"echo", "d", ⟨fun v => (none, v), Json.obj []⟩, fun v => Except.ok v⟩]⟩
        ⟨"2", "missing", Json.obj []⟩).result.error = none :=
  ⟨rfl, rfl⟩
